import Mathlib

/-!
Verification development for the static-reflection header (`reflection.hpp`).

The header provides a `REFLECTABLE(...)` macro that, inside a record type,
generates per-field metadata (`FieldData<N, Object>` with `get()`, `name()`,
`getPointerToMember()`), a capability query (`reflection::query`,
`isReflectable`, `getNumberOfFields`), and a recursive traversal engine
(`visit`, `_internal_visit`) with enter/exit hooks, plus `print` and
`prettyPrint` built on top of it.

This file shallowly embeds those pieces:

* Part A models the preprocessor layer: the argument-counting macro
  `COUNT_ARGS`, the `GET_MACRO` arity dispatch, the `REFLECT_EACH` expansion
  well-formedness and the `static_assert` field-count ceiling.
* Part B models reflectable record values and the traversal engine as the
  sequence of observable callback invocations (leaf / enter / exit events),
  and `prettyPrint` as the list of emitted lines.
* Part C models the C++ type-qualifier layer (`const`, `&`, `&&`,
  `std::remove_cvref_t`, `std::is_const_v`) needed by the capability query
  and by overload resolution of `FieldData::get`.
-/

namespace Reflection

/-! ## Part A: the preprocessor model -/

/-- The numeric tail of `COUNT_ARGS` (reflection.hpp line 99):
`COUNT_ARGS(...)` expands to `COUNT_ARGS_IMPL(__VA_ARGS__, 32, 31, ..., 1, 0)`. -/
def countArgsTail : List Nat :=
  [32, 31, 30, 29, 28, 27, 26, 25, 24, 23, 22, 21, 20, 19, 18, 17,
   16, 15, 14, 13, 12, 11, 10, 9, 8, 7, 6, 5, 4, 3, 2, 1, 0]

/-- The macro-name tail of `APPLY_MACRO_TO_EACH` (line 138): `GET_MACRO` is
passed `__VA_ARGS__` followed by `APPLY_MACRO_TO_EACH_32`, ...,
`APPLY_MACRO_TO_EACH_1`.  We record each macro name by its arity. -/
def applyDispatchTail : List Nat :=
  [32, 31, 30, 29, 28, 27, 26, 25, 24, 23, 22, 21, 20, 19, 18, 17,
   16, 15, 14, 13, 12, 11, 10, 9, 8, 7, 6, 5, 4, 3, 2, 1]

/-- The argument slots the preprocessor sees for a written argument list.
A call written with zero arguments still passes one (empty) argument slot:
`MACRO()` supplies a single empty token, not zero tokens. -/
def slotsOfWritten (args : List String) : List String :=
  if args.isEmpty then [""] else args

/-- Both `COUNT_ARGS_IMPL` (line 100) and `GET_MACRO` (line 137) have 32 named
parameters `_1 .. _32` followed by the selected parameter `N`/`NAME`: the macro
yields the element at 0-based position 32 of the combined argument list.
`Sum.inl` marks a user argument slot, `Sum.inr` an element of the tail. -/
def selectAt32 (slots : List String) (tail : List Nat) : Option (String ⊕ Nat) :=
  (slots.map Sum.inl ++ tail.map Sum.inr).get? 32

/-- Model of `COUNT_ARGS` (line 99): the selected element, when it comes from the
numeric tail.  When the selected element is one of the user argument slots
(which happens for 33 or more slots), the expansion is not a number and the
initializer `static int constexpr _reflection_fields_n = ...` is ill-formed,
modelled as `none`. -/
def countArgs (slots : List String) : Option Nat :=
  match selectAt32 slots countArgsTail with
  | some (Sum.inr n) => some n
  | _ => none

/-- Model of `GET_MACRO` dispatch (line 138): the arity of the selected
`APPLY_MACRO_TO_EACH_k` macro, or `none` when the selected element is a user
argument slot (so the expansion is not an applicable macro name). -/
def dispatchArity (slots : List String) : Option Nat :=
  match selectAt32 slots applyDispatchTail with
  | some (Sum.inr k) => some k
  | _ => none

/-- Expansion `REFLECT_EACH(dataMember, index)` (lines 157-183) references
`std::decay_t<Object>::dataMember`: each argument slot must be an actual
member name, so an empty slot makes the expansion ill-formed. -/
def slotsWellFormed (slots : List String) : Bool :=
  slots.all (fun s => !s.isEmpty)

/-- The `static_assert` on line 152:
`static_assert(_reflection_fields_n < 32, "Reflection does not support more than 32 data members.")`. -/
def staticAssertPasses (n : Nat) : Bool :=
  n < 32

/-- Whether a `REFLECTABLE(args...)` declaration (lines 149-155) compiles:
the count expansion must be a number, the arity dispatch must select a real
macro, the `static_assert` must pass, and every per-field expansion must be
well-formed. -/
def declarationCompiles (args : List String) : Bool :=
  let slots := slotsOfWritten args
  match countArgs slots, dispatchArity slots with
  | some n, some _ => staticAssertPasses n && slotsWellFormed slots
  | _, _ => false

/-- Query `query::getNumberOfFields` (lines 195-198) reads
`_reflection_fields_n`, which the macro initialized to `COUNT_ARGS(args...)`. -/
def getNumberOfFields (args : List String) : Option Nat :=
  countArgs (slotsOfWritten args)

/-- Accessor `FieldData::name` (lines 176-179) returns the stringized member name
`#dataMember` of the slot at the field's ordinal. -/
def fieldName (args : List String) (i : Nat) : Option String :=
  (slotsOfWritten args).get? i

/-! ## Part B: record values and the traversal engine

A field's declared value type is either itself reflectable (a *composite*
field, and the traversal recurses into its value) or not (a *leaf* field;
its value is opaque to the library and only handed to the leaf callback).
`RVal.scalar` models a value of a non-reflectable type, with an integer
payload standing in for whatever `operator<<` would print; `RVal.record`
models a value of a reflectable type together with its declared fields in
declaration order. -/

mutual

inductive RVal : Type where
  | scalar (payload : Int)
  | record (fields : Fields)

inductive Fields : Type where
  | nil : Fields
  | cons (name : String) (value : RVal) (rest : Fields) : Fields

end

/-- The query `query::reflectable` (lines 188-193) at the level of values: the value's
declared type went through `REFLECTABLE` exactly when the value is a record
of the model. -/
def isReflectableVal : RVal → Bool
  | RVal.scalar _ => false
  | RVal.record _ => true

/-- One observable callback invocation of the hook-augmented `visit`:
`func(fieldData)` on a leaf, `enterFunc()`, or `exitFunc()`. -/
inductive Event : Type where
  | leaf (name : String) (payload : Int)
  | enter
  | exit
deriving DecidableEq, Repr

mutual

/-- The callback invocations performed for one field, from the lambda body in
`visit` (lines 236-243) and `_internal_visit` (lines 250-257): if the field's
declared value type is reflectable, recurse via `_internal_visit` (which runs
`enterFunc()`, iterates the members, then `exitFunc()`, lines 246-260);
otherwise invoke `func(fieldData)`. -/
def handleField : String → RVal → List Event
  | n, RVal.scalar p => [Event.leaf n p]
  | _, RVal.record gs => Event.enter :: (iterFieldsC gs ++ [Event.exit])

/-- Iteration `iterateThroughMember`/`forEach` (lines 217-225): the fold over ordinals
`0 .. fieldCount-1` in ascending order, invoking the visitor's lambda on each
field's `FieldData` in turn. -/
def iterFieldsC : Fields → List Event
  | Fields.nil => []
  | Fields.cons n v rest => handleField n v ++ iterFieldsC rest

end

/-- The observable event sequence of the hook-augmented top-level `visit`
(lines 232-244): it iterates the members without running any hook around the
top-level instance itself.  (On a non-reflectable argument `visit` does not
compile; see `visitChecked`.) -/
def visitEvents : RVal → List Event
  | RVal.scalar _ => []
  | RVal.record fs => iterFieldsC fs

/-- The `static_assert(isReflectable<T>(), ...)` on line 234: `visit` is
rejected at compile time on a non-reflectable argument and otherwise always
produces its event sequence. -/
def visitChecked (v : RVal) : Option (List Event) :=
  if isReflectableVal v then some (visitEvents v) else none

/-- The calls the plain `visit(func, x)` (lines 227-230) makes to `func`:
it forwards to the hook-augmented `visit` with no-op hooks, so the observable
invocations are exactly the leaf events, in order. -/
def codeLeafCalls (v : RVal) : List (String × Int) :=
  (visitEvents v).filterMap (fun e =>
    match e with
    | Event.leaf n p => some (n, p)
    | _ => none)

/-- Custom induction principle for `Fields` that also recurses into the
fields of a nested record value, derived from the mutual recursor. -/
def fieldsMotive (P : Fields → Prop) : RVal → Prop
  | RVal.scalar _ => True
  | RVal.record gs => P gs

theorem fields_induction (P : Fields → Prop)
    (hnil : P Fields.nil)
    (hscalar : ∀ n p rest, P rest → P (Fields.cons n (RVal.scalar p) rest))
    (hrecord : ∀ n gs rest, P gs → P rest → P (Fields.cons n (RVal.record gs) rest)) :
    ∀ fs, P fs :=
  @Fields.rec (fieldsMotive P) P
    (fun _ => True.intro)
    (fun _ h => h)
    hnil
    (fun n v rest hv hrest => by
      cases v with
      | scalar p => exact hscalar n p rest hrest
      | record gs => exact hrecord n gs rest hv hrest)

/-! ### Spec-side traversal definitions

These follow the specification's words, to be compared with the event stream
produced by the embedded code. -/

mutual

/-- Spec side: the leaves reachable from a value after fully expanding
composite fields, in declared order, depth-first.  A value of a
non-reflectable type has no declared fields of its own. -/
def specLeaves : RVal → List (String × Int)
  | RVal.scalar _ => []
  | RVal.record fs => specLeavesFields fs

/-- Spec side: for each declared field in order, a composite field
contributes the leaves of its value, a leaf field contributes itself once. -/
def specLeavesFields : Fields → List (String × Int)
  | Fields.nil => []
  | Fields.cons n v rest =>
    (match v with
     | RVal.scalar p => [(n, p)]
     | RVal.record _ => specLeaves v) ++ specLeavesFields rest

end

/-- Runs a depth counter over an event stream: `enter` pushes, `exit` pops,
failing (`none`) on an `exit` with no matching open `enter`.  The stream obeys
strict stack discipline from depth `d` exactly when the run from `d` succeeds
and returns `d`. -/
def depthRun : List Event → Nat → Option Nat
  | [], d => some d
  | Event.leaf _ _ :: rest, d => depthRun rest d
  | Event.enter :: rest, d => depthRun rest (d + 1)
  | Event.exit :: _, 0 => none
  | Event.exit :: rest, Nat.succ k => depthRun rest k

/-- Number of `enterFunc()` invocations in an event stream. -/
def enterCount (es : List Event) : Nat :=
  es.countP (fun e => match e with | Event.enter => true | _ => false)

/-- Number of `exitFunc()` invocations in an event stream. -/
def exitCount (es : List Event) : Nat :=
  es.countP (fun e => match e with | Event.exit => true | _ => false)

mutual

/-- The number of composite (nested-reflectable) fields reachable from a
value, counting nested composites at every depth. -/
def compositeCountV : RVal → Nat
  | RVal.scalar _ => 0
  | RVal.record fs => compositeCountF fs

/-- Composite-field count over a declared field list. -/
def compositeCountF : Fields → Nat
  | Fields.nil => 0
  | Fields.cons _ v rest =>
    (match v with
     | RVal.scalar _ => 0
     | RVal.record gs => 1 + compositeCountF gs) + compositeCountF rest

end

/-! ### The prettyPrint model

`prettyPrint` (lines 271-309) prints `{`, then traverses with three lambdas
over an `int recursionDepth` starting at 0, then prints `}`.  Each emitted
line is modelled as (number of 4-space indent units, line text).  A loop
`for (int i = 0; i < k; ++i)` prints `max(k, 0)` units, hence `Int.toNat`. -/

/-- Indent units printed by `for (int i = 0; i < k; ++i) std::cout << "    ";`. -/
def indentUnits (k : Int) : Nat :=
  k.toNat

/-- The text of a leaf line: `fieldData.name() << " = " << fieldData.get() << ","`. -/
def leafText (n : String) (p : Int) : String :=
  n ++ " = " ++ toString p ++ ","

/-- The lines printed by `prettyPrint`'s three lambdas while folding the
event stream with the shared `recursionDepth`:
* leaf (lines 280-286): `recursionDepth + 1` units, then `name = value,`;
* enter (lines 287-295): increment, then `recursionDepth` units and `{`;
* exit (lines 296-303): `recursionDepth` units and `},`, then decrement. -/
def ppGo : List Event → Int → List (Nat × String)
  | [], _ => []
  | Event.leaf n p :: rest, d => (indentUnits (d + 1), leafText n p) :: ppGo rest d
  | Event.enter :: rest, d => (indentUnits (d + 1), "\x7b") :: ppGo rest (d + 1)
  | Event.exit :: rest, d => (indentUnits d, "\x7d,") :: ppGo rest (d - 1)

/-- The full output of `prettyPrint` as a list of lines: the unindented
opening `{` (line 277), the folded event stream from depth 0, and the
unindented closing `}` (line 308). -/
def prettyLines (v : RVal) : List (Nat × String) :=
  (0, "\x7b") :: (ppGo (visitEvents v) 0 ++ [(0, "\x7d")])

/-- The `static_assert(isReflectable<T>(), ...)` on line 273: `prettyPrint`
is rejected at compile time on a non-reflectable argument. -/
def prettyChecked (v : RVal) : Option (List (Nat × String)) :=
  if isReflectableVal v then some (prettyLines v) else none

mutual

/-- The claim's predicted output, following its words: with recursion depth
starting at 0 at the top level, incremented on each enterHook and decremented
on each exitHook, every leaf line `name = value,` is emitted at indentation
width equal to depth × one fixed unit, and each composite field is wrapped in
its own indented brace-delimited block. -/
def claimPPFields : Fields → Nat → List (Nat × String)
  | Fields.nil, _ => []
  | Fields.cons n v rest, d => claimPPField n v d ++ claimPPFields rest d

/-- One field of the claim's predicted output: a leaf line at `depth` units;
a composite block indented one unit further, its contents at depth `d + 1`. -/
def claimPPField : String → RVal → Nat → List (Nat × String)
  | n, RVal.scalar p, d => [(d, leafText n p)]
  | _, RVal.record gs, d => (d + 1, "\x7b") :: (claimPPFields gs (d + 1) ++ [(d + 1, "\x7d,")])

end

/-- The claim's predicted `prettyPrint` output for a whole record instance. -/
def claimPretty (v : RVal) : List (Nat × String) :=
  (0, "\x7b") ::
    ((match v with
      | RVal.scalar _ => []
      | RVal.record fs => claimPPFields fs 0) ++ [(0, "\x7d")])

mutual

/-- The amended prediction: identical to the claim's except that every line a
field produces sits one unit inside its enclosing braces, i.e. leaf lines and
a composite's braces are emitted at `depth + 1` units, and a composite's
contents are generated at depth `depth + 1`. -/
def amendedPPFields : Fields → Nat → List (Nat × String)
  | Fields.nil, _ => []
  | Fields.cons n v rest, d => amendedPPField n v d ++ amendedPPFields rest d

/-- One field of the amended prediction: leaf line at `d + 1` units; composite
braces at `d + 1` units with contents at depth `d + 1`, so following lines
return to the enclosing level immediately after the block closes. -/
def amendedPPField : String → RVal → Nat → List (Nat × String)
  | n, RVal.scalar p, d => [(d + 1, leafText n p)]
  | _, RVal.record gs, d => (d + 1, "\x7b") :: (amendedPPFields gs (d + 1) ++ [(d + 1, "\x7d,")])

end

/-- The amended prediction for a whole record instance. -/
def amendedPretty (v : RVal) : List (Nat × String) :=
  (0, "\x7b") ::
    ((match v with
      | RVal.scalar _ => []
      | RVal.record fs => amendedPPFields fs 0) ++ [(0, "\x7d")])

/-! ### Field access by ordinal (for `FieldData::get` / `getPointerToMember`) -/

/-- Accessor `FieldData<N, Object>::get` (lines 168-175) returns `self.dataMember`,
the member at ordinal `N` of the owning instance; structurally, the `N`-th
entry of the instance's declared field list. -/
def Fields.getVal : Fields → Nat → Option RVal
  | Fields.nil, _ => none
  | Fields.cons _ v _, 0 => some v
  | Fields.cons _ _ rest, Nat.succ i => Fields.getVal rest i

/-- The declared fields of a record value as an association list, in
declaration order. -/
def Fields.toList : Fields → List (String × RVal)
  | Fields.nil => []
  | Fields.cons n v rest => (n, v) :: Fields.toList rest

/-- Selector `getPointerToMember` (lines 180-182) returns `&std::decay_t<Object>::dataMember`,
an instance-independent selector for the field at the descriptor's ordinal;
applying it to an instance `x` (C++ `x.*p`) designates `x`'s member at that
ordinal, i.e. the value paired at position `i` of the instance's field list. -/
def applyPtm (v : RVal) (i : Nat) : Option RVal :=
  match v with
  | RVal.scalar _ => none
  | RVal.record fs => ((Fields.toList fs).get? i).map Prod.snd

/-! ## Part C: the C++ type-qualifier layer

Models the qualifier structure `visit`'s forwarding deduction and
`FieldData::get`'s overload resolution depend on: top-level `const`, lvalue
and rvalue references over a base record type.  A base type carries its
`REFLECTABLE` argument list when it has one (`none`: no declaration). -/

inductive CppTy : Type where
  | base (decl : Option (List String))
  | constQ (t : CppTy)
  | lref (t : CppTy)
  | rref (t : CppTy)

/-- Trait `std::remove_cvref_t` (lines 191, 197, 162): strips references and cv
qualifiers down to the underlying base type. -/
def removeCvref : CppTy → CppTy
  | CppTy.base d => CppTy.base d
  | CppTy.constQ t => removeCvref t
  | CppTy.lref t => removeCvref t
  | CppTy.rref t => removeCvref t

/-- Member lookup `T::_reflection_fields_n` on an already-stripped type: the
member exists exactly when the base type carries a `REFLECTABLE` declaration.
On a non-base type there is no such member. -/
def declOfBase : CppTy → Option (List String)
  | CppTy.base d => d
  | _ => none

/-- Query `query::reflectable<T>` (lines 188-193):
`requires { std::remove_cvref_t<T>::_reflection_fields_n; }`. -/
def reflectableQ (t : CppTy) : Bool :=
  (declOfBase (removeCvref t)).isSome

/-- Query `query::getNumberOfFields<T>` (lines 195-198):
`std::remove_cvref_t<T>::_reflection_fields_n`, whose value the macro set to
`COUNT_ARGS(args...)`; `none` when the member does not exist. -/
def numFieldsQ (t : CppTy) : Option Nat :=
  match declOfBase (removeCvref t) with
  | some args => countArgs (slotsOfWritten args)
  | none => none

/-- Trait `std::is_const_v<T>` (lines 168, 172): true only for a top-level
const-qualified type; in particular false for every reference type. -/
def isConstV : CppTy → Bool
  | CppTy.constQ _ => true
  | _ => false

/-- The kind of reference `FieldData::get` returns. -/
inductive Access : Type where
  | readwrite
  | readonly
deriving DecidableEq, Repr

/-- Overload resolution of `FieldData<N, Object>::get` (lines 168-175): the
overload constrained by `requires(std::is_const_v<Object>)` returns
`decltype(member)&` (a mutable reference), the one constrained by
`requires(!std::is_const_v<Object>)` returns `decltype(member) const&`
(a read-only reference). -/
def getAccess (object : CppTy) : Access :=
  if isConstV object then Access.readwrite else Access.readonly

/-- Template argument deduction for the forwarding parameter `T&& x` of
`visit` (and of `forEach`/`getFieldData`, lines 202, 218, 228) when the
argument is an lvalue of type `s`: `T` deduces to `s&`, and `FieldData`'s
`Object` parameter is that same `T` (line 203). -/
def deduceLValue (s : CppTy) : CppTy :=
  CppTy.lref s

/-! ## Supporting lemmas -/

/-- The leaf projection used to read off the plain `visit`'s calls to `func`. -/
def leafProj : Event → Option (String × Int)
  | Event.leaf n p => some (n, p)
  | _ => none

theorem codeLeafCalls_eq_filterMap (v : RVal) :
    codeLeafCalls v = (visitEvents v).filterMap leafProj := by
  unfold codeLeafCalls leafProj
  rfl

/-- Filtering the leaf events out of the engine's event stream for a field
list yields exactly the spec's depth-first leaf enumeration. -/
theorem filterMap_leafProj_iterFields :
    ∀ fs, (iterFieldsC fs).filterMap leafProj = specLeavesFields fs := by
  refine fields_induction _ ?_ ?_ ?_
  · rfl
  · intro n p rest ih
    simp [iterFieldsC, handleField, specLeavesFields, List.filterMap_append, ih, leafProj]
  · intro n gs rest ihg ihr
    simp [iterFieldsC, handleField, specLeavesFields, specLeaves, List.filterMap_append,
      ihg, ihr, leafProj]

/-- The event stream of a field list is depth-neutral: running the depth
counter across it continues in the same state. -/
theorem depthRun_iterFields :
    ∀ fs, ∀ (rest : List Event) (d : Nat),
      depthRun (iterFieldsC fs ++ rest) d = depthRun rest d := by
  refine fields_induction _ ?_ ?_ ?_
  · intro rest d
    simp [iterFieldsC]
  · intro n p fr ih rest d
    have h1 : iterFieldsC (Fields.cons n (RVal.scalar p) fr) ++ rest
        = Event.leaf n p :: (iterFieldsC fr ++ rest) := by
      simp [iterFieldsC, handleField]
    rw [h1]
    simp only [depthRun]
    exact ih rest d
  · intro n gs fr ihg ihr rest d
    have h1 : iterFieldsC (Fields.cons n (RVal.record gs) fr) ++ rest
        = Event.enter :: (iterFieldsC gs ++ (Event.exit :: (iterFieldsC fr ++ rest))) := by
      simp [iterFieldsC, handleField]
    rw [h1]
    simp only [depthRun]
    rw [ihg (Event.exit :: (iterFieldsC fr ++ rest)) (d + 1)]
    simp only [depthRun]
    exact ihr rest d

/-- Hook `enterFunc()` runs exactly once per composite field of a field list. -/
theorem enterCount_iterFields :
    ∀ fs, enterCount (iterFieldsC fs) = compositeCountF fs := by
  refine fields_induction _ ?_ ?_ ?_
  · rfl
  · intro n p rest ih
    simp [iterFieldsC, handleField, enterCount, compositeCountF,
      List.countP_append, List.countP_cons] at *
    exact ih
  · intro n gs rest ihg ihr
    simp [iterFieldsC, handleField, enterCount, compositeCountF,
      List.countP_append, List.countP_cons] at *
    omega

/-- Hook `exitFunc()` runs exactly once per composite field of a field list. -/
theorem exitCount_iterFields :
    ∀ fs, exitCount (iterFieldsC fs) = compositeCountF fs := by
  refine fields_induction _ ?_ ?_ ?_
  · rfl
  · intro n p rest ih
    simp [iterFieldsC, handleField, exitCount, compositeCountF,
      List.countP_append, List.countP_cons] at *
    exact ih
  · intro n gs rest ihg ihr
    simp [iterFieldsC, handleField, exitCount, compositeCountF,
      List.countP_append, List.countP_cons] at *
    omega

/-- Folding `prettyPrint`'s three lambdas over the event stream of a field
list from a nonnegative depth emits exactly the amended prediction's lines
for those fields and hands the rest of the stream on at the same depth. -/
theorem ppGo_iterFields :
    ∀ fs, ∀ (rest : List Event) (d : Int), 0 ≤ d →
      ppGo (iterFieldsC fs ++ rest) d = amendedPPFields fs d.toNat ++ ppGo rest d := by
  refine fields_induction _ ?_ ?_ ?_
  · intro rest d hd
    simp [iterFieldsC, amendedPPFields]
  · intro n p fr ih rest d hd
    have h1 : iterFieldsC (Fields.cons n (RVal.scalar p) fr) ++ rest
        = Event.leaf n p :: (iterFieldsC fr ++ rest) := by
      simp [iterFieldsC, handleField]
    have htn : indentUnits (d + 1) = d.toNat + 1 := by
      unfold indentUnits
      omega
    rw [h1]
    simp only [ppGo]
    rw [ih rest d hd, htn]
    simp [amendedPPFields, amendedPPField]
  · intro n gs fr ihg ihr rest d hd
    have h1 : iterFieldsC (Fields.cons n (RVal.record gs) fr) ++ rest
        = Event.enter :: (iterFieldsC gs ++ (Event.exit :: (iterFieldsC fr ++ rest))) := by
      simp [iterFieldsC, handleField]
    have htn : indentUnits (d + 1) = d.toNat + 1 := by
      unfold indentUnits
      omega
    have htn2 : (d + 1).toNat = d.toNat + 1 := by omega
    have hsub : d + 1 - 1 = d := by omega
    rw [h1]
    simp only [ppGo]
    rw [ihg (Event.exit :: (iterFieldsC fr ++ rest)) (d + 1) (by omega)]
    simp only [ppGo]
    rw [hsub, ihr rest d hd, htn, htn2]
    simp [amendedPPFields, amendedPPField]

/-- The numeric tail of `COUNT_ARGS` holds `32 - j` at position `j`. -/
theorem countArgsTail_get (j : Nat) (hj : j < 33) :
    countArgsTail.get? j = some (32 - j) := by
  interval_cases j <;> rfl

/-- Macro `COUNT_ARGS` evaluates to the number of argument slots whenever there are
at most 32 of them. -/
theorem countArgs_eq_length (l : List String) (h : l.length ≤ 32) :
    countArgs l = some l.length := by
  unfold countArgs selectAt32
  rw [List.get?_append_right (by simpa using h)]
  rw [List.get?_map, List.length_map]
  rw [countArgsTail_get (32 - l.length) (by omega)]
  have h2 : 32 - (32 - l.length) = l.length := by omega
  simp [h2]

/-- With 33 or more argument slots, the element `COUNT_ARGS` selects is one
of the argument slots itself, so the field-count initializer is ill-formed. -/
theorem countArgs_none_of_long (l : List String) (h : 32 < l.length) :
    countArgs l = none := by
  unfold countArgs selectAt32
  rw [List.get?_append (by simpa using h)]
  rw [List.get?_map]
  rw [List.get?_eq_get h]
  rfl

/-! ## The claims -/

/-- The spec's concrete scenario for the hook protocol: record `R1` with a
scalar field `a` and a composite field `b` of type `R2`, where `R2` has
scalar fields `c` then `d`. -/
def r1Example : RVal :=
  RVal.record (Fields.cons "a" (RVal.scalar 1)
    (Fields.cons "b" (RVal.record (Fields.cons "c" (RVal.scalar 2)
      (Fields.cons "d" (RVal.scalar 3) Fields.nil))) Fields.nil))

/-- C1: the field descriptor's `get()` is claimed to return a read-only
reference for a read-only owning instance and a mutable reference for a
mutable owning instance.  In the code, `Object` is always a deduced
*reference* type, `std::is_const_v` is false on every reference type, and the
two `requires` guards are inverted, so `get()` returns a `const&` for a
mutable instance as well (first conjunct: the failing half of the claim;
second: the read-only half, which holds; third: every reference-typed
`Object` gets the read-only overload; fourth: the overload returning a
mutable reference is guarded by `is_const_v<Object>` being *true*, i.e. it
would be chosen exactly for a const-qualified `Object`). -/
theorem c1_get_readonly_even_for_mutable_instance :
    (∀ a, getAccess (deduceLValue (CppTy.base a)) = Access.readonly) ∧
    (∀ a, getAccess (deduceLValue (CppTy.constQ (CppTy.base a))) = Access.readonly) ∧
    (∀ t, getAccess (CppTy.lref t) = Access.readonly ∧
          getAccess (CppTy.rref t) = Access.readonly) ∧
    (∀ t, getAccess (CppTy.constQ t) = Access.readwrite) :=
  ⟨fun _ => rfl, fun _ => rfl, fun _ => ⟨rfl, rfl⟩, fun _ => rfl⟩

/-- C2: the declaration mechanism is claimed to accept up to 32 fields
(exactly 32 succeeds) and reject 33.  The `static_assert` on line 152 checks
`_reflection_fields_n < 32`, so a declaration of exactly 32 fields is
rejected as well — contradicting the assert's own diagnostic text
"Reflection does not support more than 32 data members".  31 fields compile,
32 and 33 do not. -/
theorem c2_field_limit_off_by_one :
    declarationCompiles ((List.range 31).map (fun i => "f" ++ toString i)) = true ∧
    declarationCompiles ((List.range 32).map (fun i => "f" ++ toString i)) = false ∧
    declarationCompiles ((List.range 33).map (fun i => "f" ++ toString i)) = false :=
  ⟨by decide, by decide, by decide⟩

/-- C3 counterexample: a zero-field declaration is *not* accepted.
`REFLECTABLE()` hands the preprocessor one empty argument slot, so the
expansion is ill-formed (`REFLECT_EACH` with an empty member name), and
`COUNT_ARGS()` evaluates to 1, not 0. -/
theorem c3_zero_fields_rejected :
    declarationCompiles [] = false ∧ countArgs (slotsOfWritten []) = some 1 :=
  ⟨by decide, by decide⟩

/-- C3 amended: a zero-field declaration is rejected (the empty invocation
passes one empty slot: the count macro yields 1, not 0, and the per-field
expansion is ill-formed), so the minimum supported declaration has one field;
a record with an empty field list, were it expressible, would produce zero
leaf-callback invocations and an empty traversal. -/
theorem c3_zero_fields_amended :
    declarationCompiles [] = false ∧
    countArgs (slotsOfWritten []) = some 1 ∧
    visitEvents (RVal.record Fields.nil) = [] ∧
    codeLeafCalls (RVal.record Fields.nil) = [] :=
  ⟨by decide, by decide, rfl, rfl⟩

/-- C4: for every instance, plain `visit(leafCallback, instance)` invokes the
leaf callback exactly once per leaf reachable after fully expanding composite
fields, in declared order, depth-first: the sequence of `func` invocations
equals the spec-side depth-first leaf enumeration. -/
theorem c4_visit_leaf_order :
    ∀ v : RVal, codeLeafCalls v = specLeaves v := by
  intro v
  rw [codeLeafCalls_eq_filterMap]
  cases v with
  | scalar p => rfl
  | record fs =>
    simpa [visitEvents, specLeaves] using filterMap_leafProj_iterFields fs

/-- C5: in the hook-augmented `visit`, hooks fire only around composite
fields (a leaf field produces exactly its leaf call, a composite field
produces `enterFunc()`, then its entire sub-traversal, then `exitFunc()`;
the top level runs no hooks of its own; enter and exit counts equal the
number of composite fields), the event stream obeys strict stack discipline,
and the concrete scenario `R1` produces
`leaf(a), enter, leaf(c), leaf(d), exit`. -/
theorem c5_hook_protocol :
    (∀ n p, handleField n (RVal.scalar p) = [Event.leaf n p]) ∧
    (∀ n gs, handleField n (RVal.record gs)
        = Event.enter :: (iterFieldsC gs ++ [Event.exit])) ∧
    (∀ fs, visitEvents (RVal.record fs) = iterFieldsC fs) ∧
    (∀ v, enterCount (visitEvents v) = compositeCountV v ∧
          exitCount (visitEvents v) = compositeCountV v) ∧
    (∀ v, depthRun (visitEvents v) 0 = some 0) ∧
    visitEvents r1Example
      = [Event.leaf "a" 1, Event.enter, Event.leaf "c" 2, Event.leaf "d" 3, Event.exit] := by
  refine ⟨fun _ _ => rfl, fun _ _ => rfl, fun _ => rfl, ?_, ?_, by decide⟩
  · intro v
    cases v with
    | scalar p => exact ⟨rfl, rfl⟩
    | record fs =>
      exact ⟨enterCount_iterFields fs, exitCount_iterFields fs⟩
  · intro v
    cases v with
    | scalar p => rfl
    | record fs =>
      have h := depthRun_iterFields fs [] 0
      simpa [visitEvents, depthRun] using h

/-- C6 counterexample: for a record with a single scalar field, the leaf line
is emitted with one indent unit although the recursion depth at that moment
is 0 (no `enterHook` has run), so the output differs from the claim's
prediction of depth × one unit. -/
theorem c6_claim_indent_refuted :
    decide (prettyLines (RVal.record (Fields.cons "a" (RVal.scalar 1) Fields.nil))
      = claimPretty (RVal.record (Fields.cons "a" (RVal.scalar 1) Fields.nil))) = false ∧
    prettyLines (RVal.record (Fields.cons "a" (RVal.scalar 1) Fields.nil))
      = [(0, "\x7b"), (1, "a = 1,"), (0, "\x7d")] ∧
    claimPretty (RVal.record (Fields.cons "a" (RVal.scalar 1) Fields.nil))
      = [(0, "\x7b"), (0, "a = 1,"), (0, "\x7d")] :=
  ⟨by decide, by decide, by decide⟩

/-- C6 amended: with recursion depth starting at 0 at the top level,
incremented on each enterHook and decremented on each exitHook, every leaf
line `name = value,` is emitted at indentation width (depth + 1) × one fixed
unit (one unit inside its enclosing braces), each composite field is wrapped
in its own brace-delimited block whose braces sit at (depth + 1) units with
contents one level deeper, and indentation returns to the enclosing level's
width immediately after each nested block closes: the printed lines equal
the amended recursive prediction. -/
theorem c6_indentation_amended :
    ∀ fs, prettyLines (RVal.record fs) = amendedPretty (RVal.record fs) := by
  intro fs
  unfold prettyLines amendedPretty
  have h := ppGo_iterFields fs [] 0 le_rfl
  simp only [List.append_nil] at h
  simp [visitEvents, h, ppGo]

/-- C7: for any field list whose `REFLECTABLE` declaration compiles, the
field-count query returns exactly the number of declared names, and each
descriptor's `name()` is the literal given at declaration (a pure constant,
hence stable across repeated queries). -/
theorem c7_field_count_and_names (args : List String)
    (h : declarationCompiles args = true) :
    getNumberOfFields args = some args.length ∧
    (∀ i, i < args.length → fieldName args i = args.get? i) := by
  have hargs : args ≠ [] := by
    intro he
    rw [he] at h
    exact absurd h (by decide)
  have hslots : slotsOfWritten args = args := by
    unfold slotsOfWritten
    cases args with
    | nil => exact absurd rfl hargs
    | cons a l => rfl
  have hlen : args.length ≤ 32 := by
    by_contra hlong
    have hnone := countArgs_none_of_long args (by omega)
    simp [declarationCompiles, hslots, hnone] at h
  constructor
  · unfold getNumberOfFields
    rw [hslots]
    exact countArgs_eq_length args hlen
  · intro i _
    unfold fieldName
    rw [hslots]

/-- C7 witness: the two-field declaration `REFLECTABLE(x, y)` compiles and
its field count is 2. -/
theorem c7_field_count_and_names_witness :
    declarationCompiles ["x", "y"] = true ∧ getNumberOfFields ["x", "y"] = some 2 :=
  ⟨by decide, (c7_field_count_and_names ["x", "y"] (by decide)).1⟩

/-- C8: `visit` and `prettyPrint` on a non-reflectable type are rejected by
the `static_assert` before any instance-level work (modelled as `none`), and
for every reflectable value they always produce their deterministic result —
there is no runtime error path (the traversal functions are total). -/
theorem c8_static_rejection_totality :
    (∀ v, visitChecked v = none ↔ isReflectableVal v = false) ∧
    (∀ fs, visitChecked (RVal.record fs) = some (iterFieldsC fs)) ∧
    (∀ v, prettyChecked v = none ↔ isReflectableVal v = false) ∧
    (∀ fs, prettyChecked (RVal.record fs) = some (prettyLines (RVal.record fs))) := by
  refine ⟨?_, fun fs => rfl, ?_, fun fs => rfl⟩
  · intro v
    cases v <;> simp [visitChecked, isReflectableVal]
  · intro v
    cases v <;> simp [prettyChecked, isReflectableVal]

/-- C9: both capability queries strip cv and reference qualifiers via
`std::remove_cvref_t` before inspecting the type, so `isReflectable` and
`getNumberOfFields` agree over `T`, `T&`, `T&&`, `const T` and `const T&`. -/
theorem c9_query_cvref_invariance :
    ∀ t : CppTy,
      reflectableQ (CppTy.lref t) = reflectableQ t ∧
      reflectableQ (CppTy.rref t) = reflectableQ t ∧
      reflectableQ (CppTy.constQ t) = reflectableQ t ∧
      reflectableQ (CppTy.lref (CppTy.constQ t)) = reflectableQ t ∧
      numFieldsQ (CppTy.lref t) = numFieldsQ t ∧
      numFieldsQ (CppTy.rref t) = numFieldsQ t ∧
      numFieldsQ (CppTy.constQ t) = numFieldsQ t ∧
      numFieldsQ (CppTy.lref (CppTy.constQ t)) = numFieldsQ t :=
  fun _ => ⟨rfl, rfl, rfl, rfl, rfl, rfl, rfl, rfl⟩

/-- C10: for every record instance and every ordinal, applying the
instance-independent pointer-to-member returned by `getPointerToMember()` to
the instance designates exactly the field subobject that the descriptor's
`get()` returns: position-`i` lookup through the member selector agrees with
the structural member access at ordinal `i`. -/
theorem c10_pointer_to_member_agrees :
    ∀ (fs : Fields) (i : Nat), applyPtm (RVal.record fs) i = Fields.getVal fs i := by
  have key : ∀ fs : Fields, ∀ i, applyPtm (RVal.record fs) i = Fields.getVal fs i := by
    refine fields_induction _ ?_ ?_ ?_
    · intro i
      cases i <;> rfl
    · intro n p rest ih i
      cases i with
      | zero => rfl
      | succ j =>
        simpa [applyPtm, Fields.toList, Fields.getVal] using ih j
    · intro n gs rest _ ih i
      cases i with
      | zero => rfl
      | succ j =>
        simpa [applyPtm, Fields.toList, Fields.getVal] using ih j
  exact key

end Reflection
